import Mathlib

/-
Verification of the mytablecopy row-copy pipeline.

The Go program streams rows of a MySQL table from a source connection to a
target connection: a producer goroutine (readRows) scans each row into a
shared buffer and hands it to a consumer (writeRows) over an unbuffered
channel; the consumer renders the row as SQL literal text, accumulates
batches bounded by a byte threshold and executes them transactionally.
This file embeds the pure parts of that pipeline (literal rendering,
batching, statement generation, flag validation) as executable Lean
definitions and the producer/consumer handshake as a labelled transition
system, and proves the specification's claims about them.
-/

namespace MyTableCopy

/-- Raw byte sequences (Go byte slices / sql.RawBytes) modelled as lists of byte values. -/
abbrev Bytes := List Nat

/-- A column value as scanned by readRows: none models a nil sql.RawBytes
(SQL NULL), some b models a present value with bytes b (possibly empty). -/
abbrev ColValue := Option Bytes

/-- go bytes.Replace(s, old, new, -1) for a single-byte pattern old: every
occurrence of the byte old in s is replaced by the sequence new. -/
def replaceByte (old : Nat) (new : Bytes) (s : Bytes) : Bytes :=
  s.flatMap (fun b => if b = old then new else [b])

/-- The six data types the writeRows switch (mytablecopy.go lines 490-501)
treats as text-like and subjects to escaping. -/
def isTextType (ty : String) : Bool :=
  ty = "tinytext" || ty = "text" || ty = "mediumtext" || ty = "longtext" ||
  ty = "char" || ty = "varchar"

/-- The escaping applied by writeRows (lines 503-504): every backslash (92)
is doubled first, then every single quote (39) is backslash-escaped. -/
def escapeBytes (s : Bytes) : Bytes :=
  replaceByte 39 [92, 39] (replaceByte 92 [92, 92] s)

/-- go bytes.IndexAny(col, backslash-quote) >= 0 (line 502): the value
contains a backslash or a single-quote byte. -/
def needsEscape (s : Bytes) : Bool := s.contains 92 || s.contains 39

/-- Rendering of a single column value by the current writeRows
(mytablecopy.go lines 484-512): NULL for an absent value, a pair of single
quotes for a present-but-empty value, and otherwise the value quoted, with
the escaping replacements applied first when the column is text-like and
the value contains a backslash or quote (when it contains neither, the
text-like case falls through to the generic quoting branch unchanged). -/
def renderCol (ty : String) (v : ColValue) : Bytes :=
  match v with
  | none => [78, 85, 76, 76]
  | some col =>
    if col.length = 0 then [39, 39]
    else if isTextType ty && needsEscape col then [39] ++ escapeBytes col ++ [39]
    else [39] ++ col ++ [39]

/-- Rendering of a single column value by the older program variant
(src/unnamed/part_000, writeRows lines 440-470): identical NULL and empty
handling, but a text-like value is unconditionally passed through both
escaping replacements before quoting. -/
def renderColOld (ty : String) (v : ColValue) : Bytes :=
  match v with
  | none => [78, 85, 76, 76]
  | some col =>
    if col.length = 0 then [39, 39]
    else if isTextType ty then [39] ++ escapeBytes col ++ [39]
    else [39] ++ col ++ [39]

/-- Modelled from the spec: MySQL's literal unescaping of a quoted string
body, the external reading against which the spec states that escaped text
"recovers the original byte sequence byte-for-byte". A backslash followed
by a byte denotes that byte; any other byte denotes itself. This is not
code of the repository; it is the spec's round-trip reference. -/
def mysqlUnescape : Bytes → Bytes
  | [] => []
  | b :: rest =>
    if b = 92 then
      match rest with
      | [] => [b]
      | c :: rest2 => c :: mysqlUnescape rest2
    else b :: mysqlUnescape rest

/-- Per-byte view of the composed escaping: a backslash becomes two
backslashes, a quote becomes backslash-quote, anything else is unchanged. -/
def escByte (b : Nat) : Bytes :=
  if b = 92 then [92, 92] else if b = 39 then [92, 39] else [b]

/-- Field-list rendering of one row by the current writeRows loop
(lines 484-518): each field is rendered by renderCol against the column
type at its index and all fields but the last are comma (44) separated.
The index argument i is the position of the first value of the remaining
list within the whole row. -/
def renderFields (cols : List String) (i : Nat) : List ColValue → Bytes
  | [] => []
  | v :: rest =>
    renderCol (cols.getD i "") v
    ++ (if i < cols.length - 1 then [44] else [])
    ++ renderFields cols (i + 1) rest

/-- Field-list rendering of one row by the older variant's writeRows loop
(src/unnamed/part_000 lines 440-475), with the same comma placement. -/
def renderFieldsOld (cols : List String) (i : Nat) : List ColValue → Bytes
  | [] => []
  | v :: rest =>
    renderColOld (cols.getD i "") v
    ++ (if i < cols.length - 1 then [44] else [])
    ++ renderFieldsOld cols (i + 1) rest

theorem escapeBytes_eq_flatMap (s : Bytes) : escapeBytes s = s.flatMap escByte := by
  induction s with
  | nil => rfl
  | cons b rest ih =>
    unfold escapeBytes replaceByte at *
    simp only [List.flatMap_cons, List.flatMap_append]
    rw [show ((if b = 92 then ([92, 92] : Bytes) else [b]).flatMap
          (fun b => if b = 39 then [92, 39] else [b])) = escByte b by
      unfold escByte
      by_cases h92 : b = 92
      · simp [h92]
      · by_cases h39 : b = 39 <;> simp [h92, h39]]
    rw [ih]

theorem mysqlUnescape_escByte_append (b : Nat) (s : Bytes) :
    mysqlUnescape (escByte b ++ s) = b :: mysqlUnescape s := by
  unfold escByte
  by_cases h92 : b = 92
  · simp [h92, mysqlUnescape]
  · by_cases h39 : b = 39
    · simp [h39, mysqlUnescape]
    · simp only [if_neg h92, if_neg h39, List.cons_append, List.nil_append]
      rw [mysqlUnescape.eq_def]
      simp [h92]

theorem mysqlUnescape_escape (s : Bytes) : mysqlUnescape (escapeBytes s) = s := by
  rw [escapeBytes_eq_flatMap]
  induction s with
  | nil => rfl
  | cons b rest ih =>
    rw [List.flatMap_cons, mysqlUnescape_escByte_append, ih]

theorem escapeBytes_of_not_needsEscape (s : Bytes) (h : needsEscape s = false) :
    escapeBytes s = s := by
  rw [escapeBytes_eq_flatMap]
  unfold needsEscape at h
  rw [Bool.or_eq_false_iff] at h
  induction s with
  | nil => rfl
  | cons b rest ih =>
    simp only [List.contains_cons, Bool.or_eq_false_iff] at h
    rw [List.flatMap_cons]
    have hb92 : b ≠ 92 := by
      intro hb; exact absurd (beq_iff_eq.mpr hb.symm) (by simp [h.1.1])
    have hb39 : b ≠ 39 := by
      intro hb; exact absurd (beq_iff_eq.mpr hb.symm) (by simp [h.2.1])
    rw [show escByte b = [b] by unfold escByte; simp [hb92, hb39]]
    rw [List.singleton_append, ih ⟨h.1.2, h.2.2⟩]

theorem escByte_ne_nil (b : Nat) : escByte b ≠ [] := by
  unfold escByte
  split
  · simp
  · split <;> simp

theorem escapeBytes_ne_nil (col : Bytes) (h : col ≠ []) : escapeBytes col ≠ [] := by
  rw [escapeBytes_eq_flatMap]
  cases col with
  | nil => exact absurd rfl h
  | cons b rest =>
    rw [List.flatMap_cons]
    intro hcontr
    exact escByte_ne_nil b (List.append_eq_nil.mp hcontr).1

theorem renderCol_quoted (ty : String) (col : Bytes) (h : ¬ col.length = 0) :
    ∃ x : Bytes, renderCol ty (some col) = 39 :: (x ++ [39]) ∧ x ≠ [] := by
  have hnil : col ≠ [] := by
    intro hc; subst hc; simp at h
  unfold renderCol
  simp only [if_neg h]
  by_cases hc : (isTextType ty && needsEscape col) = true
  · exact ⟨escapeBytes col, by simp [hc], escapeBytes_ne_nil col hnil⟩
  · exact ⟨col, by simp [hc], hnil⟩

theorem renderCol_eq_old (ty : String) (v : ColValue) :
    renderCol ty v = renderColOld ty v := by
  cases v with
  | none => rfl
  | some col =>
    unfold renderCol renderColOld
    by_cases hlen : col.length = 0
    · simp [hlen]
    · simp only [if_neg hlen]
      by_cases ht : isTextType ty = true
      · by_cases hn : needsEscape col = true
        · simp [ht, hn]
        · have hesc := escapeBytes_of_not_needsEscape col (by
            rw [Bool.not_eq_true] at hn; exact hn)
          simp [ht, hn, hesc]
      · simp [ht]

/-- C2: for every non-empty value of a text-like column, the rendered text
is exactly the value with every backslash doubled first and then every
single quote backslash-escaped (each occurrence escaped exactly once),
wrapped in quotes, and MySQL's literal unescaping of the escaped body
recovers the original byte sequence byte-for-byte. -/
theorem claimC2_text_escape_roundtrip (ty : String) (col : Bytes)
    (ht : isTextType ty = true) (hne : col ≠ []) :
    renderCol ty (some col) = [39] ++ escapeBytes col ++ [39] ∧
    mysqlUnescape (escapeBytes col) = col := by
  constructor
  · have hlen : ¬ col.length = 0 := by
      intro hc; exact hne (List.length_eq_zero.mp hc)
    unfold renderCol
    simp only [if_neg hlen]
    by_cases hn : needsEscape col = true
    · simp [ht, hn]
    · have hesc := escapeBytes_of_not_needsEscape col (by
        rw [Bool.not_eq_true] at hn; exact hn)
      simp [ht, hn, hesc]
  · exact mysqlUnescape_escape col

theorem claimC2_text_escape_roundtrip_witness :
    isTextType "text" = true ∧ ([92, 39, 97] : Bytes) ≠ [] ∧
    (renderCol "text" (some [92, 39, 97]) = [39] ++ escapeBytes [92, 39, 97] ++ [39] ∧
     mysqlUnescape (escapeBytes [92, 39, 97]) = [92, 39, 97]) :=
  ⟨by decide, by decide,
   claimC2_text_escape_roundtrip "text" [92, 39, 97] (by decide) (by decide)⟩

/-- C3: for every column type and every column value, the rendering maps a
NULL (absent) value to the unquoted literal NULL and a present-but-empty
value to the empty string literal, and never conflates the two: a value
renders as the NULL literal exactly when it is absent, and as the empty
string literal exactly when it is present and empty. -/
theorem claimC3_null_empty_distinct (ty : String) (v : ColValue) :
    (renderCol ty v = [78, 85, 76, 76] ↔ v = none) ∧
    (renderCol ty v = [39, 39] ↔ v = some []) := by
  cases v with
  | none =>
    constructor
    · simp [renderCol]
    · simp [renderCol]
  | some col =>
    by_cases hlen : col.length = 0
    · have hcol : col = [] := List.length_eq_zero.mp hlen
      subst hcol
      constructor
      · simp [renderCol]
      · simp [renderCol]
    · obtain ⟨x, hx, hxne⟩ := renderCol_quoted ty col hlen
      constructor
      · refine iff_of_false (fun hcontr => ?_) (by simp)
        rw [hx] at hcontr
        injection hcontr with h1 _
        omega
      · refine iff_of_false (fun hcontr => ?_) (fun hcontr => ?_)
        · rw [hx] at hcontr
          injection hcontr with _ h2
          have : x.length + 1 = 1 := by
            have := congrArg List.length h2
            simpa using this
          exact hxne (List.length_eq_zero.mp (by omega))
        · injection hcontr with h2
          subst h2
          simp at hlen

/-- C10: the per-row tuple renderers of the two program variants are
extensionally equal: for every column-type profile and every row of
column values, the current variant (which escapes a text-like value only
when it contains a backslash or single quote and otherwise falls through
to generic quoting) produces byte-identical field-list text to the older
variant (which unconditionally applies both escaping replacements to
text-like values before quoting). -/
theorem claimC10_render_refinement (cols : List String) (i : Nat) (row : List ColValue) :
    renderFields cols i row = renderFieldsOld cols i row := by
  induction row generalizing i with
  | nil => rfl
  | cons v rest ih =>
    unfold renderFields renderFieldsOld
    rw [renderCol_eq_old, ih]

/-- go insert buffer byte threshold (mytablecopy.go line 23). -/
def insertBufferSize : Nat := 1048576

/-- Byte sequence of an ASCII string literal, one byte per character. -/
def strBytes (s : String) : Bytes := s.toList.map Char.toNat

/-- go addQuotes (mytablecopy.go line 338) at the byte level: wrap the
identifier in backticks (96). -/
def addQuotesB (s : Bytes) : Bytes := [96] ++ s ++ [96]

/-- Insert statement prefix built by writeRows (lines 469-475): the verb
depends on the ignore flag, the schema and table identifiers are
backtick-quoted and dot (46) separated. -/
def insertPrefix (ignore : Bool) (schema table : Bytes) : Bytes :=
  strBytes (if ignore then "insert ignore into " else "insert into ")
  ++ addQuotesB schema ++ [46] ++ addQuotesB table ++ strBytes " values ("

/-- State of the writeRows consumer loop: the accumulating batch buffer,
the comma flag appendSQL, the statements executed and committed so far (in
order), and the row counter. -/
structure WriterState where
  buf : Bytes
  appendSQL : Bool
  executed : List Bytes
  rowsWritten : Nat
deriving Repr, DecidableEq

/-- Initial writer state (lines 463-477): the buffer holds exactly the
statement prefix, nothing executed yet. -/
def initWriter (pfx : Bytes) : WriterState :=
  { buf := pfx, appendSQL := false, executed := [], rowsWritten := 0 }

/-- The bytes the loop body appends for one received row (lines 479-520):
a comma-parenthesis separator when appendSQL is set, then the rendered
field list, then the closing parenthesis (41). -/
def appendedBuf (cols : List String) (s : WriterState) (row : List ColValue) : Bytes :=
  s.buf ++ (if s.appendSQL then [44, 40] else []) ++ renderFields cols 0 row ++ [41]

/-- One iteration of the writeRows consumer loop body (lines 478-566) at
byte threshold bufSize: append the row tuple, then if the buffer length
strictly exceeds bufSize execute the buffer as one committed transaction
and reset it to exactly the prefix with appendSQL cleared; otherwise keep
accumulating with appendSQL set. -/
def writeRowStep (bufSize : Nat) (pfx : Bytes) (cols : List String)
    (s : WriterState) (row : List ColValue) : WriterState :=
  let buf1 := appendedBuf cols s row
  if buf1.length > bufSize then
    { buf := pfx, appendSQL := false, executed := s.executed ++ [buf1],
      rowsWritten := s.rowsWritten + 1 }
  else
    { buf := buf1, appendSQL := true, executed := s.executed,
      rowsWritten := s.rowsWritten + 1 }

/-- The whole writeRows run over the source's row list (lines 460-597):
fold the loop body over the rows, then execute the residual buffer as one
final committed transaction exactly when it is strictly longer than the
statement prefix (lines 568-594). -/
def writeRowsRun (bufSize : Nat) (ignore : Bool) (schema table : Bytes)
    (cols : List String) (rows : List (List ColValue)) : WriterState :=
  let pfx := insertPrefix ignore schema table
  let final := rows.foldl (writeRowStep bufSize pfx cols) (initWriter pfx)
  if final.buf.length > pfx.length then
    { final with executed := final.executed ++ [final.buf] }
  else final

theorem appendedBuf_ne_buf (cols : List String) (s : WriterState) (row : List ColValue) :
    ∃ t, appendedBuf cols s row = s.buf ++ t ∧ t ≠ [] := by
  refine ⟨(if s.appendSQL then [44, 40] else []) ++ renderFields cols 0 row ++ [41], ?_, ?_⟩
  · unfold appendedBuf
    simp [List.append_assoc]
  · intro hcontr
    have := congrArg List.length hcontr
    simp [List.length_append] at this

theorem writeRows_loop_invariant (bufSize : Nat) (pfx : Bytes) (cols : List String) :
    ∀ (rows : List (List ColValue)) (s : WriterState), (∃ r0, s.buf = pfx ++ r0) →
      (∀ e ∈ s.executed, ∃ r, e = pfx ++ r ∧ r ≠ []) →
      (∃ r0, (rows.foldl (writeRowStep bufSize pfx cols) s).buf = pfx ++ r0) ∧
      (∀ e ∈ (rows.foldl (writeRowStep bufSize pfx cols) s).executed,
         ∃ r, e = pfx ++ r ∧ r ≠ []) := by
  intro rows
  induction rows with
  | nil => intro s hbuf hexec; exact ⟨hbuf, hexec⟩
  | cons row rs ih =>
    intro s hbuf hexec
    rw [List.foldl_cons]
    obtain ⟨r0, hr0⟩ := hbuf
    obtain ⟨t, ht, htne⟩ := appendedBuf_ne_buf cols s row
    have hb1 : ∃ r, appendedBuf cols s row = pfx ++ r ∧ r ≠ [] := by
      refine ⟨r0 ++ t, by rw [ht, hr0, List.append_assoc], ?_⟩
      intro hcontr
      exact htne (List.append_eq_nil.mp hcontr).2
    unfold writeRowStep
    by_cases hflush : (appendedBuf cols s row).length > bufSize
    · rw [if_pos hflush]
      refine ih _ ⟨[], by simp⟩ ?_
      intro e he
      simp only [List.mem_append, List.mem_singleton] at he
      rcases he with he | he
      · exact hexec e he
      · subst he; exact hb1
    · rw [if_neg hflush]
      refine ih _ ?_ hexec
      obtain ⟨r, hr, _⟩ := hb1
      exact ⟨r, hr⟩

/-- C8: a batch is executed only when it holds at least one row tuple
beyond the statement prefix: for a source returning zero rows no insert
statement is executed at all, and every statement ever executed by
writeRows (mid-stream or final flush) is the statement prefix followed by
a non-empty tail of row data. -/
theorem claimC8_flush_only_nonempty (bufSize : Nat) (ignore : Bool)
    (schema table : Bytes) (cols : List String) (rows : List (List ColValue)) :
    (writeRowsRun bufSize ignore schema table cols []).executed = [] ∧
    (∀ e ∈ (writeRowsRun bufSize ignore schema table cols rows).executed,
       ∃ r, e = insertPrefix ignore schema table ++ r ∧ r ≠ []) := by
  constructor
  · unfold writeRowsRun
    simp [initWriter]
  · intro e he
    unfold writeRowsRun at he
    have hinv := writeRows_loop_invariant bufSize (insertPrefix ignore schema table) cols
      rows (initWriter (insertPrefix ignore schema table))
      ⟨[], by simp [initWriter]⟩ (by intro e' he'; simp [initWriter] at he')
    set f := rows.foldl (writeRowStep bufSize (insertPrefix ignore schema table) cols)
      (initWriter (insertPrefix ignore schema table)) with hf
    by_cases hfin : f.buf.length > (insertPrefix ignore schema table).length
    · rw [if_pos hfin] at he
      simp only [List.mem_append, List.mem_singleton] at he
      rcases he with he | he
      · exact hinv.2 e he
      · subst he
        obtain ⟨r0, hr0⟩ := hinv.1
        refine ⟨r0, hr0, ?_⟩
        intro hcontr
        subst hcontr
        rw [hr0] at hfin
        simp at hfin
    · rw [if_neg hfin] at he
      exact hinv.2 e he

theorem claimC8_flush_only_nonempty_witness :
    (insertPrefix false [115] [116] ++ [39, 49, 39, 41]) ∈
      (writeRowsRun 0 false [115] [116] ["int"] [[some [49]]]).executed ∧
    (∃ r, insertPrefix false [115] [116] ++ [39, 49, 39, 41] =
       insertPrefix false [115] [116] ++ r ∧ r ≠ []) :=
  ⟨by decide,
   (claimC8_flush_only_nonempty 0 false [115] [116] ["int"] [[some [49]]]).2
     _ (by decide)⟩

/-- Bytes one row tuple contributes beyond its separator: the rendered
field list plus the closing parenthesis. -/
def tupleLen (cols : List String) (row : List ColValue) : Nat :=
  (renderFields cols 0 row).length + 1

/-- Total encoded size of the source rows: the sum of their tuple sizes. -/
def encodedLen (cols : List String) (rows : List (List ColValue)) : Nat :=
  (rows.map (tupleLen cols)).sum

/-- Exact number of bytes the loop appends to the buffer across the given
rows when no mid-stream flush fires, starting from comma flag ap. -/
def noFlushLen (cols : List String) : Bool → List (List ColValue) → Nat
  | _, [] => 0
  | ap, r :: rs => (if ap then 2 else 0) + tupleLen cols r + noFlushLen cols true rs

theorem writeRowStep_flush (bufSize : Nat) (pfx : Bytes) (cols : List String)
    (s : WriterState) (row : List ColValue)
    (h : (appendedBuf cols s row).length > bufSize) :
    writeRowStep bufSize pfx cols s row
      = { buf := pfx, appendSQL := false,
          executed := s.executed ++ [appendedBuf cols s row],
          rowsWritten := s.rowsWritten + 1 } := by
  unfold writeRowStep
  rw [if_pos h]

theorem writeRowStep_no_flush (bufSize : Nat) (pfx : Bytes) (cols : List String)
    (s : WriterState) (row : List ColValue)
    (h : ¬ (appendedBuf cols s row).length > bufSize) :
    writeRowStep bufSize pfx cols s row
      = { buf := appendedBuf cols s row, appendSQL := true,
          executed := s.executed, rowsWritten := s.rowsWritten + 1 } := by
  unfold writeRowStep
  rw [if_neg h]

theorem appendedBuf_length (cols : List String) (s : WriterState) (row : List ColValue) :
    (appendedBuf cols s row).length
      = s.buf.length + (if s.appendSQL then 2 else 0) + tupleLen cols row := by
  unfold appendedBuf tupleLen
  cases hap : s.appendSQL
  all_goals simp [List.length_append]
  all_goals try omega

theorem foldl_no_flush (bufSize : Nat) (pfx : Bytes) (cols : List String) :
    ∀ (rows : List (List ColValue)) (s : WriterState),
      s.buf.length + noFlushLen cols s.appendSQL rows ≤ bufSize →
      (rows.foldl (writeRowStep bufSize pfx cols) s).executed = s.executed ∧
      (rows.foldl (writeRowStep bufSize pfx cols) s).buf.length
        = s.buf.length + noFlushLen cols s.appendSQL rows := by
  intro rows
  induction rows with
  | nil => intro s h; exact ⟨rfl, by simp [noFlushLen]⟩
  | cons row rs ih =>
    intro s h
    rw [List.foldl_cons]
    have hlen1 := appendedBuf_length cols s row
    have hnf : noFlushLen cols s.appendSQL (row :: rs)
        = (if s.appendSQL then 2 else 0) + tupleLen cols row + noFlushLen cols true rs := rfl
    rw [hnf] at h
    have hle : ¬ (appendedBuf cols s row).length > bufSize := by omega
    rw [writeRowStep_no_flush bufSize pfx cols s row hle]
    obtain ⟨h1, h2⟩ := ih { buf := appendedBuf cols s row, appendSQL := true,
                            executed := s.executed, rowsWritten := s.rowsWritten + 1 }
      (show (appendedBuf cols s row).length + noFlushLen cols true rs ≤ bufSize by omega)
    refine ⟨h1, ?_⟩
    have h2' : (rs.foldl (writeRowStep bufSize pfx cols)
        { buf := appendedBuf cols s row, appendSQL := true,
          executed := s.executed, rowsWritten := s.rowsWritten + 1 }).buf.length
        = (appendedBuf cols s row).length + noFlushLen cols true rs := h2
    rw [h2', hnf]
    omega

theorem foldl_executed_mono (bufSize : Nat) (pfx : Bytes) (cols : List String) :
    ∀ (rows : List (List ColValue)) (s : WriterState),
      ∃ l, (rows.foldl (writeRowStep bufSize pfx cols) s).executed = s.executed ++ l := by
  intro rows
  induction rows with
  | nil => intro s; exact ⟨[], by simp⟩
  | cons row rs ih =>
    intro s
    rw [List.foldl_cons]
    by_cases hc : (appendedBuf cols s row).length > bufSize
    · rw [writeRowStep_flush bufSize pfx cols s row hc]
      obtain ⟨l, hl⟩ := ih
        { buf := pfx, appendSQL := false,
          executed := s.executed ++ [appendedBuf cols s row],
          rowsWritten := s.rowsWritten + 1 }
      refine ⟨[appendedBuf cols s row] ++ l, ?_⟩
      rw [hl]
      simp [List.append_assoc]
    · rw [writeRowStep_no_flush bufSize pfx cols s row hc]
      obtain ⟨l, hl⟩ := ih
        { buf := appendedBuf cols s row, appendSQL := true,
          executed := s.executed, rowsWritten := s.rowsWritten + 1 }
      exact ⟨l, hl⟩

theorem foldl_no_flush_growth (bufSize : Nat) (pfx : Bytes) (cols : List String) :
    ∀ (rows : List (List ColValue)) (s : WriterState),
      (rows.foldl (writeRowStep bufSize pfx cols) s).executed = s.executed →
      (rows.foldl (writeRowStep bufSize pfx cols) s).buf.length
          ≥ s.buf.length + encodedLen cols rows ∧
      (rows = [] ∨ (rows.foldl (writeRowStep bufSize pfx cols) s).buf.length ≤ bufSize) := by
  intro rows
  induction rows with
  | nil => intro s _; exact ⟨by simp [encodedLen], Or.inl rfl⟩
  | cons row rs ih =>
    intro s h
    rw [List.foldl_cons] at h ⊢
    by_cases hc : (appendedBuf cols s row).length > bufSize
    · exfalso
      rw [writeRowStep_flush bufSize pfx cols s row hc] at h
      obtain ⟨l, hl⟩ := foldl_executed_mono bufSize pfx cols rs
        { buf := pfx, appendSQL := false,
          executed := s.executed ++ [appendedBuf cols s row],
          rowsWritten := s.rowsWritten + 1 }
      rw [hl] at h
      have hlen := congrArg List.length h
      simp only [List.length_append, List.length_singleton] at hlen
      omega
    · rw [writeRowStep_no_flush bufSize pfx cols s row hc] at h ⊢
      obtain ⟨ih1, ih2⟩ := ih
        { buf := appendedBuf cols s row, appendSQL := true,
          executed := s.executed, rowsWritten := s.rowsWritten + 1 } h
      have ih1' : (rs.foldl (writeRowStep bufSize pfx cols)
          { buf := appendedBuf cols s row, appendSQL := true,
            executed := s.executed, rowsWritten := s.rowsWritten + 1 }).buf.length
          ≥ (appendedBuf cols s row).length + encodedLen cols rs := ih1
      have hlen1 := appendedBuf_length cols s row
      have henc : encodedLen cols (row :: rs) = tupleLen cols row + encodedLen cols rs := by
        unfold encodedLen
        simp
      constructor
      · rw [henc]
        omega
      · rcases ih2 with hrs | hle
        · subst hrs
          refine Or.inr ?_
          have : (List.foldl (writeRowStep bufSize pfx cols)
              { buf := appendedBuf cols s row, appendSQL := true,
                executed := s.executed, rowsWritten := s.rowsWritten + 1 } []).buf.length
              = (appendedBuf cols s row).length := rfl
          rw [this]
          omega
        · exact Or.inr hle

theorem writeRowsRun_eq (bufSize : Nat) (ignore : Bool) (schema table : Bytes)
    (cols : List String) (rows : List (List ColValue)) :
    writeRowsRun bufSize ignore schema table cols rows
      = (if (rows.foldl (writeRowStep bufSize (insertPrefix ignore schema table) cols)
               (initWriter (insertPrefix ignore schema table))).buf.length
             > (insertPrefix ignore schema table).length
         then { rows.foldl (writeRowStep bufSize (insertPrefix ignore schema table) cols)
                  (initWriter (insertPrefix ignore schema table)) with
                executed := (rows.foldl (writeRowStep bufSize (insertPrefix ignore schema table) cols)
                    (initWriter (insertPrefix ignore schema table))).executed
                  ++ [(rows.foldl (writeRowStep bufSize (insertPrefix ignore schema table) cols)
                    (initWriter (insertPrefix ignore schema table))).buf] }
         else rows.foldl (writeRowStep bufSize (insertPrefix ignore schema table) cols)
                (initWriter (insertPrefix ignore schema table))) := rfl

theorem renderCol_not_text (ty : String) (col : Bytes) (hty : isTextType ty = false)
    (hne : ¬ col.length = 0) : renderCol ty (some col) = [39] ++ col ++ [39] := by
  have h : renderCol ty (some col)
      = if col.length = 0 then [39, 39]
        else if (isTextType ty && needsEscape col) = true then [39] ++ escapeBytes col ++ [39]
        else [39] ++ col ++ [39] := rfl
  rw [h, if_neg hne, hty]
  simp

/-- C4 (amended): whenever the accumulated buffer strictly exceeds the
byte threshold after appending a row tuple, the batch is executed as one
committed transaction and the buffer reset to exactly the insert prefix;
consequently a source whose total encoded rows exceed the threshold
produces at least one committed transaction, and a non-empty source whose
full encoding stays within the threshold produces exactly one flush, at
end of stream, with no mid-stream transaction. -/
theorem claimC4_batch_threshold (bufSize : Nat) (ignore : Bool) (schema table : Bytes)
    (cols : List String) (rows : List (List ColValue)) :
    (∀ (s : WriterState) (row : List ColValue),
       (appendedBuf cols s row).length > bufSize →
       writeRowStep bufSize (insertPrefix ignore schema table) cols s row
         = { buf := insertPrefix ignore schema table, appendSQL := false,
             executed := s.executed ++ [appendedBuf cols s row],
             rowsWritten := s.rowsWritten + 1 }) ∧
    (encodedLen cols rows > bufSize →
       1 ≤ (writeRowsRun bufSize ignore schema table cols rows).executed.length) ∧
    (rows ≠ [] →
       (insertPrefix ignore schema table).length + noFlushLen cols false rows ≤ bufSize →
       (rows.foldl (writeRowStep bufSize (insertPrefix ignore schema table) cols)
           (initWriter (insertPrefix ignore schema table))).executed = [] ∧
       (writeRowsRun bufSize ignore schema table cols rows).executed.length = 1) := by
  refine ⟨fun s row h => writeRowStep_flush bufSize _ cols s row h, ?_, ?_⟩
  · intro henc
    rw [writeRowsRun_eq]
    set pfx := insertPrefix ignore schema table with hpfx
    set f := rows.foldl (writeRowStep bufSize pfx cols) (initWriter pfx) with hfdef
    have hfe : f.executed ≠ [] := by
      intro hfe
      have hgrow := foldl_no_flush_growth bufSize pfx cols rows (initWriter pfx)
        (by rw [← hfdef, hfe]; rfl)
      rw [← hfdef] at hgrow
      have hg1 : f.buf.length ≥ pfx.length + encodedLen cols rows := hgrow.1
      rcases hgrow.2 with hrows | hle
      · subst hrows
        unfold encodedLen at henc
        simp at henc
      · omega
    have hfpos : 0 < f.executed.length := List.length_pos.mpr hfe
    by_cases hfin : f.buf.length > pfx.length
    · rw [if_pos hfin]
      show 1 ≤ (f.executed ++ [f.buf]).length
      rw [List.length_append]
      omega
    · rw [if_neg hfin]
      omega
  · intro hne hfit
    rw [writeRowsRun_eq]
    set pfx := insertPrefix ignore schema table with hpfx
    set f := rows.foldl (writeRowStep bufSize pfx cols) (initWriter pfx) with hfdef
    have hnf := foldl_no_flush bufSize pfx cols rows (initWriter pfx)
      (show pfx.length + noFlushLen cols false rows ≤ bufSize from hfit)
    rw [← hfdef] at hnf
    have hex : f.executed = [] := hnf.1
    have hlen : f.buf.length = pfx.length + noFlushLen cols false rows := hnf.2
    have hpos : noFlushLen cols false rows > 0 := by
      cases rows with
      | nil => exact absurd rfl hne
      | cons row rs =>
        have hh : noFlushLen cols false (row :: rs)
            = 0 + tupleLen cols row + noFlushLen cols true rs := rfl
        rw [hh]
        unfold tupleLen
        omega
    refine ⟨hex, ?_⟩
    rw [if_pos (by rw [hlen]; omega)]
    show (f.executed ++ [f.buf]).length = 1
    rw [hex]
    rfl

theorem claimC4_batch_threshold_witness :
    1 ≤ (writeRowsRun 3 false [115] [116] ["int"] [[some [49]]]).executed.length ∧
    (writeRowsRun 100 false [115] [116] ["int"] [[some [49]]]).executed.length = 1 ∧
    writeRowStep 3 (insertPrefix false [115] [116]) ["int"]
        (initWriter (insertPrefix false [115] [116])) [some [49]]
      = { buf := insertPrefix false [115] [116], appendSQL := false,
          executed := [appendedBuf ["int"]
            (initWriter (insertPrefix false [115] [116])) [some [49]]],
          rowsWritten := 1 } :=
  ⟨(claimC4_batch_threshold 3 false [115] [116] ["int"] [[some [49]]]).2.1 (by decide),
   ((claimC4_batch_threshold 100 false [115] [116] ["int"] [[some [49]]]).2.2
      (by decide) (by decide)).2,
   (claimC4_batch_threshold 3 false [115] [116] ["int"] [[some [49]]]).1
      (initWriter (insertPrefix false [115] [116])) [some [49]] (by decide)⟩

theorem renderFields_single (ty : String) (v : Bytes) (hty : isTextType ty = false)
    (hne : ¬ v.length = 0) :
    renderFields [ty] 0 [some v] = [39] ++ v ++ [39] := by
  have h1 : renderFields [ty] 0 [some v]
      = renderCol ([ty].getD 0 "") (some v)
        ++ (if 0 < ([ty] : List String).length - 1 then [44] else [])
        ++ renderFields [ty] 1 [] := rfl
  have h2 : (if 0 < ([ty] : List String).length - 1 then ([44] : Bytes) else []) = [] := rfl
  have h3 : renderFields [ty] 1 [] = [] := rfl
  have h4 : ([ty].getD 0 "") = ty := rfl
  rw [h1, h2, h3, h4, renderCol_not_text ty v hty hne, List.append_nil, List.append_nil]

theorem encodedLen_single (ty : String) (v : Bytes) (hty : isTextType ty = false)
    (hne : ¬ v.length = 0) :
    encodedLen [ty] [[some v]] = v.length + 3 := by
  have h0 : encodedLen [ty] [[some v]]
      = (renderFields [ty] 0 [some v]).length + 1 + 0 := by
    unfold encodedLen tupleLen
    rw [List.map_cons, List.map_nil, List.sum_cons, List.sum_nil]
  rw [h0, renderFields_single ty v hty hne, List.length_append, List.length_append]
  have h39 : ([39] : Bytes).length = 1 := rfl
  rw [h39]
  omega

theorem writeRowsRun_single_flush (bufSize : Nat) (schema table : Bytes)
    (ty : String) (v : Bytes) (hty : isTextType ty = false) (hne : ¬ v.length = 0)
    (hbig : (insertPrefix false schema table).length + v.length + 3 > bufSize) :
    (writeRowsRun bufSize false schema table [ty] [[some v]]).executed.length = 1 := by
  rw [writeRowsRun_eq]
  set pfx := insertPrefix false schema table with hpfx
  have happ : appendedBuf [ty] (initWriter pfx) [some v]
      = pfx ++ [] ++ renderFields [ty] 0 [some v] ++ [41] := rfl
  have happlen : (appendedBuf [ty] (initWriter pfx) [some v]).length
      = pfx.length + v.length + 3 := by
    rw [happ, renderFields_single ty v hty hne]
    rw [List.length_append, List.length_append, List.length_append, List.length_append,
      List.length_append, List.length_nil]
    have h39 : ([39] : Bytes).length = 1 := rfl
    have h41 : ([41] : Bytes).length = 1 := rfl
    rw [h39, h41]
    omega
  have hgt : (appendedBuf [ty] (initWriter pfx) [some v]).length > bufSize := by
    rw [happlen]
    omega
  have hstep := writeRowStep_flush bufSize pfx [ty] (initWriter pfx) [some v] hgt
  rw [List.foldl_cons, hstep, List.foldl_nil]
  rw [if_neg (by simp)]
  simp [initWriter]

/-- C4 (counterexample to the claim as stated): with the default 1048576
byte threshold, a single row whose encoding exceeds the threshold is
flushed mid-stream leaving an empty residual buffer, so the run commits
exactly one transaction, not more than one; and an empty source, whose
encoding trivially stays below the threshold, produces zero flushes
rather than exactly one. -/
theorem claimC4_counterexample :
    encodedLen ["int"] [[some (List.replicate 1048577 97)]] > insertBufferSize ∧
    (writeRowsRun insertBufferSize false [115] [116] ["int"]
        [[some (List.replicate 1048577 97)]]).executed.length = 1 ∧
    (writeRowsRun insertBufferSize false [115] [116] ["int"] []).executed.length = 0 := by
  have hrlen : (List.replicate 1048577 97 : Bytes).length = 1048577 :=
    List.length_replicate 1048577 97
  have hty : isTextType "int" = false := by decide
  have hne : ¬ (List.replicate 1048577 97 : Bytes).length = 0 := by
    rw [hrlen]
    omega
  have hplen : (insertPrefix false [115] [116]).length = 28 := by decide
  refine ⟨?_, ?_, ?_⟩
  · rw [encodedLen_single "int" _ hty hne, hrlen]
    unfold insertBufferSize
    omega
  · exact writeRowsRun_single_flush insertBufferSize [115] [116] "int" _ hty hne
      (by rw [hplen, hrlen]; unfold insertBufferSize; omega)
  · rw [writeRowsRun_eq]
    simp [initWriter]

/-- Program counter of the producer goroutine readRows (mytablecopy.go
lines 440-457): about to call rows.Next for row k (fetch k, which on
success overwrites the shared scan buffer with row k), blocked sending
row k on the unbuffered dataChan (send k), blocked receiving the
acknowledgment from goChan (waitAck k), closing dataChan after
exhaustion, and done. -/
inductive ProdPC where
  | fetch (k : Nat)
  | send (k : Nat)
  | waitAck (k : Nat)
  | closing
  | done
deriving DecidableEq, Repr

/-- Program counter of the consumer writeRows (lines 478-566): blocked on
the dataChan range loop (recv), rendering row k and executing any
triggered batch (process k), blocked sending the acknowledgment on goChan
(ack k), and out of the loop after dataChan closes (finished). -/
inductive ConsPC where
  | recv
  | process (k : Nat)
  | ack (k : Nat)
  | finished
deriving DecidableEq, Repr

/-- Joint state of the two goroutines: both program counters, the number
of rows scanned into the shared buffer so far, the number of
acknowledgments sent, and the consumer's writer state. -/
structure PipeState where
  prod : ProdPC
  cons : ConsPC
  scanned : Nat
  acked : Nat
  ws : WriterState

/-- Initial pipeline state: producer about to fetch row 0, consumer
blocked on the channel, writer state freshly initialised. -/
def initPipe (pfx : Bytes) : PipeState :=
  { prod := .fetch 0, cons := .recv, scanned := 0, acked := 0, ws := initWriter pfx }

/-- Interleaved small-step semantics of the readRows/writeRows pair with n
source rows (rowsF k is row k). Channel operations on the unbuffered
dataChan and goChan are rendezvous: a send and its matching receive form
one joint transition. scan models rows.Next/rows.Scan overwriting the
shared buffer; consume models the whole loop body of writeRows (rendering
the tuple and executing a triggered batch) before the acknowledgment. -/
inductive PipeStep (bufSize : Nat) (pfx : Bytes) (cols : List String)
    (rowsF : Nat → List ColValue) (n : Nat) : PipeState → PipeState → Prop where
  | scan (k : Nat) (s : PipeState) : s.prod = .fetch k → k < n →
      PipeStep bufSize pfx cols rowsF n s
        { s with prod := .send k, scanned := s.scanned + 1 }
  | publish (k : Nat) (s : PipeState) : s.prod = .send k → s.cons = .recv →
      PipeStep bufSize pfx cols rowsF n s
        { s with prod := .waitAck k, cons := .process k }
  | consume (k : Nat) (s : PipeState) : s.cons = .process k →
      PipeStep bufSize pfx cols rowsF n s
        { s with cons := .ack k, ws := writeRowStep bufSize pfx cols s.ws (rowsF k) }
  | ackStep (k : Nat) (s : PipeState) : s.prod = .waitAck k → s.cons = .ack k →
      PipeStep bufSize pfx cols rowsF n s
        { s with prod := .fetch (k + 1), cons := .recv, acked := s.acked + 1 }
  | exhaust (k : Nat) (s : PipeState) : s.prod = .fetch k → ¬ k < n →
      PipeStep bufSize pfx cols rowsF n s { s with prod := .closing }
  | closeStep (s : PipeState) : s.prod = .closing → s.cons = .recv →
      PipeStep bufSize pfx cols rowsF n s { s with prod := .done, cons := .finished }

/-- States reachable from the initial pipeline state. -/
inductive PipeReachable (bufSize : Nat) (pfx : Bytes) (cols : List String)
    (rowsF : Nat → List ColValue) (n : Nat) : PipeState → Prop where
  | init : PipeReachable bufSize pfx cols rowsF n (initPipe pfx)
  | step (s s' : PipeState) : PipeReachable bufSize pfx cols rowsF n s →
      PipeStep bufSize pfx cols rowsF n s s' → PipeReachable bufSize pfx cols rowsF n s'

/-- The writer state after the consumer has fully processed the first k
rows, in order: the writeRows fold over rows 0 .. k-1. -/
def wsAfter (bufSize : Nat) (pfx : Bytes) (cols : List String)
    (rowsF : Nat → List ColValue) (k : Nat) : WriterState :=
  ((List.range k).map rowsF).foldl (writeRowStep bufSize pfx cols) (initWriter pfx)

/-- Rendezvous invariant of the pipeline, keyed on the producer's program
counter: the scan counter never runs more than one ahead of the
acknowledgment counter, the consumer is only ever processing the single
published row, and the writer state always equals the writeRows fold over
exactly the rows the consumer has finished. -/
def PipeInv (bufSize : Nat) (pfx : Bytes) (cols : List String)
    (rowsF : Nat → List ColValue) (s : PipeState) : Prop :=
  match s.prod with
  | .fetch k => s.scanned = k ∧ s.acked = k ∧ s.cons = .recv ∧
      s.ws = wsAfter bufSize pfx cols rowsF k
  | .send k => s.scanned = k + 1 ∧ s.acked = k ∧ s.cons = .recv ∧
      s.ws = wsAfter bufSize pfx cols rowsF k
  | .waitAck k => s.scanned = k + 1 ∧ s.acked = k ∧
      ((s.cons = .process k ∧ s.ws = wsAfter bufSize pfx cols rowsF k) ∨
       (s.cons = .ack k ∧ s.ws = wsAfter bufSize pfx cols rowsF (k + 1)))
  | .closing => s.scanned = s.acked ∧ s.cons = .recv ∧
      s.ws = wsAfter bufSize pfx cols rowsF s.acked
  | .done => s.scanned = s.acked ∧ s.cons = .finished ∧
      s.ws = wsAfter bufSize pfx cols rowsF s.acked

theorem wsAfter_succ (bufSize : Nat) (pfx : Bytes) (cols : List String)
    (rowsF : Nat → List ColValue) (k : Nat) :
    wsAfter bufSize pfx cols rowsF (k + 1)
      = writeRowStep bufSize pfx cols (wsAfter bufSize pfx cols rowsF k) (rowsF k) := by
  unfold wsAfter
  rw [List.range_succ, List.map_append, List.foldl_append]
  rfl

theorem pipeInv_step (bufSize : Nat) (pfx : Bytes) (cols : List String)
    (rowsF : Nat → List ColValue) (n : Nat) (s s' : PipeState)
    (hs : PipeInv bufSize pfx cols rowsF s)
    (hstep : PipeStep bufSize pfx cols rowsF n s s') :
    PipeInv bufSize pfx cols rowsF s' := by
  cases hstep with
  | scan k s hpc hk =>
    simp only [PipeInv, hpc] at hs
    simp only [PipeInv]
    exact ⟨by rw [hs.1], hs.2.1, hs.2.2.1, hs.2.2.2⟩
  | publish k s hpc hcons =>
    simp only [PipeInv, hpc] at hs
    simp only [PipeInv]
    exact ⟨hs.1, hs.2.1, Or.inl ⟨trivial, hs.2.2.2⟩⟩
  | consume k s hcons =>
    cases hp : s.prod with
    | fetch j =>
      simp only [PipeInv, hp] at hs
      rw [hs.2.2.1] at hcons
      exact absurd hcons (by simp)
    | send j =>
      simp only [PipeInv, hp] at hs
      rw [hs.2.2.1] at hcons
      exact absurd hcons (by simp)
    | waitAck j =>
      simp only [PipeInv, hp] at hs
      rcases hs.2.2 with ⟨hc, hws⟩ | ⟨hc, _⟩
      · rw [hc] at hcons
        have hjk : j = k := by injection hcons
        subst hjk
        simp only [PipeInv, hp]
        refine ⟨hs.1, hs.2.1, Or.inr ⟨trivial, ?_⟩⟩
        rw [wsAfter_succ, hws]
      · rw [hc] at hcons
        exact absurd hcons (by simp)
    | closing =>
      simp only [PipeInv, hp] at hs
      rw [hs.2.1] at hcons
      exact absurd hcons (by simp)
    | done =>
      simp only [PipeInv, hp] at hs
      rw [hs.2.1] at hcons
      exact absurd hcons (by simp)
  | ackStep k s hprod hcons =>
    simp only [PipeInv, hprod] at hs
    rcases hs.2.2 with ⟨hc, _⟩ | ⟨_, hws⟩
    · rw [hc] at hcons
      exact absurd hcons (by simp)
    · simp only [PipeInv]
      exact ⟨hs.1, by rw [hs.2.1], trivial, hws⟩
  | exhaust k s hpc hk =>
    simp only [PipeInv, hpc] at hs
    simp only [PipeInv]
    refine ⟨by rw [hs.1, hs.2.1], hs.2.2.1, ?_⟩
    rw [hs.2.1]
    exact hs.2.2.2
  | closeStep s hprod hcons =>
    simp only [PipeInv, hprod] at hs
    simp only [PipeInv]
    exact ⟨hs.1, trivial, hs.2.2⟩

theorem pipeInv_reachable (bufSize : Nat) (pfx : Bytes) (cols : List String)
    (rowsF : Nat → List ColValue) (n : Nat) (s : PipeState)
    (h : PipeReachable bufSize pfx cols rowsF n s) :
    PipeInv bufSize pfx cols rowsF s := by
  induction h with
  | init => exact ⟨rfl, rfl, rfl, rfl⟩
  | step s s' hr hstep ih => exact pipeInv_step bufSize pfx cols rowsF n s s' ih hstep

/-- C1: the producer/consumer handshake is a strict single-row-in-flight
rendezvous: in every reachable pipeline state in which the producer is
about to advance the cursor and overwrite the shared row buffer with row
k, all k previously scanned rows have been acknowledged, the consumer is
idle at the channel (not reading the buffer), and the consumer's writer
state equals the writeRows fold over exactly those k rows — i.e. every
published row has been fully used (tuple rendered and any triggered batch
executed) and acknowledged before the producer advances. -/
theorem claimC1_handshake_rendezvous (bufSize : Nat) (pfx : Bytes) (cols : List String)
    (rowsF : Nat → List ColValue) (n : Nat) (s : PipeState)
    (hreach : PipeReachable bufSize pfx cols rowsF n s) (k : Nat)
    (hfetch : s.prod = ProdPC.fetch k) :
    s.scanned = k ∧ s.acked = k ∧ s.cons = ConsPC.recv ∧
    s.ws = wsAfter bufSize pfx cols rowsF k := by
  have hinv := pipeInv_reachable bufSize pfx cols rowsF n s hreach
  simp only [PipeInv, hfetch] at hinv
  exact hinv

/-- Pipeline state after one complete scan-publish-consume-acknowledge
cycle on a one-row source, used to exercise the rendezvous theorem. -/
def pipeCycleState : PipeState :=
  { prod := .fetch 1, cons := .recv, scanned := 1, acked := 1,
    ws := writeRowStep 0 [] [] (initWriter []) [] }

theorem claimC1_handshake_rendezvous_witness :
    pipeCycleState.scanned = 1 ∧ pipeCycleState.acked = 1 ∧
    pipeCycleState.cons = ConsPC.recv ∧
    pipeCycleState.ws = wsAfter 0 [] [] (fun _ => []) 1 :=
  claimC1_handshake_rendezvous 0 [] [] (fun _ => []) 1 pipeCycleState
    (PipeReachable.step _ _
      (PipeReachable.step _ _
        (PipeReachable.step _ _
          (PipeReachable.step _ _ PipeReachable.init
            (PipeStep.scan 0 _ rfl (by omega)))
          (PipeStep.publish 0 _ rfl rfl))
        (PipeStep.consume 0 _ rfl))
      (PipeStep.ackStep 0 _ rfl rfl))
    1 rfl

/-- Statement text at the character level (Go strings; the statements
involved are ASCII so characters coincide with bytes). -/
abbrev Chars := List Char

/-- go strings.Replace(s, old, new, 1) for a non-empty pattern: the first
occurrence of old in s is replaced by new; s is returned unchanged when
old does not occur. (Go inserts new at the start for an empty old; the
only divergence of this model is old = "" with s = "", irrelevant here.) -/
def replaceFirst (pat rep : Chars) : Chars → Chars
  | [] => []
  | c :: s =>
    if pat.isPrefixOf (c :: s) then rep ++ (c :: s).drop pat.length
    else c :: replaceFirst pat rep s

/-- go createTable lines 407-410: when the source and target table names
differ, the captured creation statement has the first occurrence of the
source table name replaced by the target name before execution. -/
def renameTableStmt (tableCreate srcTable tgtTable : Chars) : Chars :=
  if srcTable ≠ tgtTable then replaceFirst srcTable tgtTable tableCreate
  else tableCreate

theorem isPrefixOf_append_self (l t : Chars) : l.isPrefixOf (l ++ t) = true := by
  induction l with
  | nil => simp [List.isPrefixOf]
  | cons a l ih => simp [List.isPrefixOf, ih]

theorem replaceFirst_at (src tgt rest : Chars) (hsrc : src ≠ []) :
    ∀ pre : Chars,
      (∀ i, i < pre.length → ¬ src.isPrefixOf ((pre ++ (src ++ rest)).drop i) = true) →
      replaceFirst src tgt (pre ++ (src ++ rest)) = pre ++ (tgt ++ rest) := by
  intro pre
  induction pre with
  | nil =>
    intro _
    simp only [List.nil_append]
    cases hs : src ++ rest with
    | nil => exact absurd (List.append_eq_nil.mp hs).1 hsrc
    | cons c l =>
      have hred : replaceFirst src tgt (c :: l)
          = if src.isPrefixOf (c :: l) = true
            then tgt ++ List.drop src.length (c :: l)
            else c :: replaceFirst src tgt l := rfl
      rw [hred, if_pos (by rw [← hs]; exact isPrefixOf_append_self src rest), ← hs,
        List.drop_left]
  | cons c pre' ih =>
    intro hfirst
    have h0 := hfirst 0 (by simp)
    rw [List.drop_zero] at h0
    rw [List.cons_append]
    unfold replaceFirst
    rw [if_neg (by rw [← List.cons_append]; exact h0)]
    rw [ih (fun i hi => by
      have := hfirst (i + 1) (by simpa using Nat.succ_lt_succ hi)
      rwa [List.cons_append, List.drop_succ_cons] at this)]
    rfl

/-- C5 (amended): when the target table name differs from the source, the
executed creation statement is the captured statement with the first
substring occurrence of the source table name replaced by the target
name; in particular, when the source name's first occurrence is its table
identifier (it does not occur at any earlier position of the statement
text), only the table identifier is substituted and the remainder of the
statement is unchanged. -/
theorem claimC5_rename_table (pre src tgt rest : Chars)
    (hsrc : src ≠ []) (hdiff : src ≠ tgt)
    (hfirst : ∀ i, i < pre.length →
      ¬ src.isPrefixOf ((pre ++ (src ++ rest)).drop i) = true) :
    renameTableStmt (pre ++ (src ++ rest)) src tgt = pre ++ (tgt ++ rest) := by
  unfold renameTableStmt
  rw [if_pos hdiff]
  exact replaceFirst_at src tgt rest hsrc pre hfirst

theorem claimC5_rename_table_witness :
    ("mytable".toList : Chars) ≠ [] ∧
    ("mytable".toList : Chars) ≠ "newtbl".toList ∧
    renameTableStmt ("CREATE TABLE `".toList ++ ("mytable".toList ++ "` (`a` int)".toList))
        "mytable".toList "newtbl".toList
      = "CREATE TABLE `".toList ++ ("newtbl".toList ++ "` (`a` int)".toList) :=
  ⟨by decide, by decide,
   claimC5_rename_table "CREATE TABLE `".toList "mytable".toList "newtbl".toList
     "` (`a` int)".toList (by decide) (by decide) (by decide)⟩

/-- C5 (counterexample to the claim as stated): the rewrite replaces the
first substring occurrence of the source table name, which need not be
the table identifier: for a source table named ABLE the first occurrence
lies inside the keyword text CREATE TABLE, so the executed statement has
its keyword corrupted and its table identifier untouched instead of being
the captured statement with only the identifier substituted. -/
theorem claimC5_counterexample :
    renameTableStmt "CREATE TABLE `ABLE` (`a` int)".toList "ABLE".toList "NEW".toList
      = "CREATE TNEW `ABLE` (`a` int)".toList ∧
    renameTableStmt "CREATE TABLE `ABLE` (`a` int)".toList "ABLE".toList "NEW".toList
      ≠ "CREATE TABLE `NEW` (`a` int)".toList := by
  exact ⟨by decide, by decide⟩

/-- go addQuotes (mytablecopy.go lines 337-341) at the character level:
wrap the identifier in backtick delimiters. -/
def addQuotes (s : Chars) : Chars := "`".toList ++ s ++ "`".toList

/-- Query built by getCreateTable (line 348). -/
def showCreateStmt (schema table : Chars) : Chars :=
  "show create table ".toList ++ addQuotes schema ++ ".".toList ++ addQuotes table

/-- Statement built by createSchema (line 382). -/
def createDatabaseStmt (schema charSet : Chars) : Chars :=
  "create database ".toList ++ addQuotes schema
  ++ " default character set ".toList ++ charSet

/-- Schema-selection statement built by createTable (line 401): the target
schema name is embedded directly, without the quoting helper. -/
def useStmtCreateTable (schema : Chars) : Chars := "use ".toList ++ schema

/-- Drop statement built by createTable (line 404). -/
def dropTableStmt (table : Chars) : Chars :=
  "drop table if exists ".toList ++ addQuotes table

/-- Source select built by readRows (line 423), wh being the optional
pre-assembled where clause. -/
def selectStmt (schema table wh : Chars) : Chars :=
  "select * from ".toList ++ addQuotes schema ++ ".".toList ++ addQuotes table ++ wh

/-- Schema-selection statement built by writeRows (line 543). -/
def useStmtWriteRows (schema : Chars) : Chars := "use ".toList ++ addQuotes schema

/-- Insert statement prefix built by writeRows (lines 469-474) at the
character level. -/
def insertPrefixChars (ignore : Bool) (schema table : Chars) : Chars :=
  (if ignore then "insert ignore into ".toList else "insert into ".toList)
  ++ addQuotes schema ++ ".".toList ++ addQuotes table ++ " values (".toList

/-- Substring test: pat occurs contiguously inside the statement. -/
def containsSeq (pat : Chars) : Chars → Bool
  | [] => pat.isEmpty
  | c :: s => pat.isPrefixOf (c :: s) || containsSeq pat s

/-- The identifier occurs backtick-quoted inside the statement text. -/
def embedsQuoted (ident stmt : Chars) : Bool := containsSeq (addQuotes ident) stmt

theorem isPrefixOf_exists (pat s : Chars) (h : pat.isPrefixOf s = true) :
    ∃ r, s = pat ++ r := by
  induction pat generalizing s with
  | nil => exact ⟨s, rfl⟩
  | cons a l ih =>
    cases s with
    | nil => simp [List.isPrefixOf] at h
    | cons b t =>
      simp only [List.isPrefixOf, Bool.and_eq_true, beq_iff_eq] at h
      obtain ⟨r, hr⟩ := ih t h.2
      exact ⟨r, by rw [h.1, hr]; rfl⟩

theorem containsSeq_exists (pat s : Chars) (h : containsSeq pat s = true) :
    ∃ l r, s = l ++ pat ++ r := by
  induction s with
  | nil =>
    refine ⟨[], [], ?_⟩
    unfold containsSeq at h
    rw [List.isEmpty_iff] at h
    rw [h]
    rfl
  | cons c t ih =>
    unfold containsSeq at h
    rw [Bool.or_eq_true] at h
    rcases h with h | h
    · obtain ⟨r, hr⟩ := isPrefixOf_exists pat (c :: t) h
      exact ⟨[], r, by rw [hr]; rfl⟩
    · obtain ⟨l, r, hlr⟩ := ih h
      exact ⟨c :: l, r, by rw [hlr]; rfl⟩

theorem containsSeq_of_exists (pat : Chars) :
    ∀ l r : Chars, containsSeq pat (l ++ pat ++ r) = true := by
  intro l
  induction l with
  | nil =>
    intro r
    simp only [List.nil_append]
    cases hp : pat ++ r with
    | nil =>
      have hpat := (List.append_eq_nil.mp hp).1
      subst hpat
      rfl
    | cons c t =>
      have hred : containsSeq pat (c :: t)
          = (pat.isPrefixOf (c :: t) || containsSeq pat t) := rfl
      rw [hred]
      have hpre : pat.isPrefixOf (c :: t) = true := by
        rw [← hp]
        exact isPrefixOf_append_self pat r
      rw [hpre]
      simp
  | cons c l ih =>
    intro r
    have hred : containsSeq pat (c :: (l ++ pat ++ r))
        = (pat.isPrefixOf (c :: (l ++ pat ++ r)) || containsSeq pat (l ++ pat ++ r)) := rfl
    rw [List.cons_append, List.cons_append, hred, ih r]
    simp

/-- C6 (amended): all schema and table identifiers used as identifiers in
generated SQL are backtick-quoted via the quoting helper — in the show
create table query, the create database statement, the drop statement,
the source select, the writeRows schema selection and the insert prefix —
with one exception: the schema-selection (use) statement inside
createTable embeds the target schema name unquoted (for any schema name
that itself contains no backtick, the quoted form does not occur in that
statement at all). The catalog queries embed the names as single-quoted
string values rather than as identifiers. -/
theorem claimC6_identifiers_quoted (schema table wh charSet : Chars) (ignore : Bool) :
    embedsQuoted schema (showCreateStmt schema table) = true ∧
    embedsQuoted table (showCreateStmt schema table) = true ∧
    embedsQuoted schema (createDatabaseStmt schema charSet) = true ∧
    embedsQuoted table (dropTableStmt table) = true ∧
    embedsQuoted schema (selectStmt schema table wh) = true ∧
    embedsQuoted table (selectStmt schema table wh) = true ∧
    embedsQuoted schema (useStmtWriteRows schema) = true ∧
    embedsQuoted schema (insertPrefixChars ignore schema table) = true ∧
    embedsQuoted table (insertPrefixChars ignore schema table) = true ∧
    ((∀ x ∈ ("`".toList : Chars), x ∉ schema) →
      embedsQuoted schema (useStmtCreateTable schema) = false) := by
  refine ⟨?_, ?_, ?_, ?_, ?_, ?_, ?_, ?_, ?_, ?_⟩
  · unfold embedsQuoted showCreateStmt
    rw [show "show create table ".toList ++ addQuotes schema ++ ".".toList ++ addQuotes table
        = "show create table ".toList ++ addQuotes schema
          ++ (".".toList ++ addQuotes table) by simp [List.append_assoc]]
    exact containsSeq_of_exists (addQuotes schema) "show create table ".toList _
  · unfold embedsQuoted showCreateStmt
    rw [show "show create table ".toList ++ addQuotes schema ++ ".".toList ++ addQuotes table
        = ("show create table ".toList ++ addQuotes schema ++ ".".toList)
          ++ addQuotes table ++ [] by simp]
    exact containsSeq_of_exists (addQuotes table) _ []
  · unfold embedsQuoted createDatabaseStmt
    rw [show "create database ".toList ++ addQuotes schema
          ++ " default character set ".toList ++ charSet
        = "create database ".toList ++ addQuotes schema
          ++ (" default character set ".toList ++ charSet) by simp [List.append_assoc]]
    exact containsSeq_of_exists (addQuotes schema) "create database ".toList _
  · unfold embedsQuoted dropTableStmt
    rw [show "drop table if exists ".toList ++ addQuotes table
        = "drop table if exists ".toList ++ addQuotes table ++ [] by simp]
    exact containsSeq_of_exists (addQuotes table) "drop table if exists ".toList []
  · unfold embedsQuoted selectStmt
    rw [show "select * from ".toList ++ addQuotes schema ++ ".".toList ++ addQuotes table ++ wh
        = "select * from ".toList ++ addQuotes schema
          ++ (".".toList ++ addQuotes table ++ wh) by simp [List.append_assoc]]
    exact containsSeq_of_exists (addQuotes schema) "select * from ".toList _
  · unfold embedsQuoted selectStmt
    rw [show "select * from ".toList ++ addQuotes schema ++ ".".toList ++ addQuotes table ++ wh
        = ("select * from ".toList ++ addQuotes schema ++ ".".toList)
          ++ addQuotes table ++ wh by simp [List.append_assoc]]
    exact containsSeq_of_exists (addQuotes table) _ wh
  · unfold embedsQuoted useStmtWriteRows
    rw [show "use ".toList ++ addQuotes schema
        = "use ".toList ++ addQuotes schema ++ [] by simp]
    exact containsSeq_of_exists (addQuotes schema) "use ".toList []
  · unfold embedsQuoted insertPrefixChars
    rw [show (if ignore then "insert ignore into ".toList else "insert into ".toList)
          ++ addQuotes schema ++ ".".toList ++ addQuotes table ++ " values (".toList
        = (if ignore then "insert ignore into ".toList else "insert into ".toList)
          ++ addQuotes schema
          ++ (".".toList ++ addQuotes table ++ " values (".toList) by simp [List.append_assoc]]
    exact containsSeq_of_exists (addQuotes schema) _ _
  · unfold embedsQuoted insertPrefixChars
    rw [show (if ignore then "insert ignore into ".toList else "insert into ".toList)
          ++ addQuotes schema ++ ".".toList ++ addQuotes table ++ " values (".toList
        = ((if ignore then "insert ignore into ".toList else "insert into ".toList)
          ++ addQuotes schema ++ ".".toList)
          ++ addQuotes table ++ " values (".toList by simp [List.append_assoc]]
    exact containsSeq_of_exists (addQuotes table) _ _
  · intro hnb
    unfold embedsQuoted
    by_contra hcontr
    rw [Bool.not_eq_false] at hcontr
    obtain ⟨l, r, hlr⟩ := containsSeq_exists (addQuotes schema) (useStmtCreateTable schema)
      hcontr
    have hbt : ∀ x ∈ ("`".toList : Chars), x ∈ useStmtCreateTable schema := by
      intro x hx
      rw [hlr]
      unfold addQuotes
      simp only [List.mem_append]
      tauto
    obtain ⟨b, hb⟩ : ∃ b, b ∈ ("`".toList : Chars) := ⟨"`".toList.headD 'A', by decide⟩
    have hmem := hbt b hb
    unfold useStmtCreateTable at hmem
    rw [List.mem_append] at hmem
    have hnotuse : ∀ x ∈ ("`".toList : Chars), x ∉ ("use ".toList : Chars) := by decide
    rcases hmem with hmem | hmem
    · exact hnotuse b hb hmem
    · exact hnb b hb hmem

/-- C6 (counterexample to the claim as stated): the schema-selection
statement issued by createTable embeds the target schema identifier
without backtick quoting — for the schema named s, the statement is
exactly the four keyword characters followed by the bare identifier, and
the backtick-quoted identifier does not occur in it. -/
theorem claimC6_counterexample :
    useStmtCreateTable "s".toList = "use s".toList ∧
    containsSeq "s".toList (useStmtCreateTable "s".toList) = true ∧
    embedsQuoted "s".toList (useStmtCreateTable "s".toList) = false := by
  exact ⟨by decide, by decide, by decide⟩

theorem claimC6_identifiers_quoted_witness :
    embedsQuoted "s".toList (showCreateStmt "s".toList "t".toList) = true ∧
    embedsQuoted "s".toList (useStmtCreateTable "s".toList) = false :=
  ⟨(claimC6_identifiers_quoted "s".toList "t".toList [] [] false).1,
   (claimC6_identifiers_quoted "s".toList "t".toList [] [] false).2.2.2.2.2.2.2.2.2
     (by decide)⟩

/-- go main lines 167-170: enabling the ignore flag forces the append
flag; the effective append mode is the disjunction of the two flags. -/
def effectiveAppend (ignoreFlag appendFlag : Bool) : Bool :=
  if ignoreFlag then true else appendFlag

/-- The DDL statements executed by createTable (lines 392-418), in order:
foreign-key-check suspension, schema selection, conditional drop, and the
(possibly renamed) creation statement. -/
def createTableStmts (srcTable tgtSchema tgtTable tableCreate : Chars) : List Chars :=
  ["set foreign_key_checks=0".toList,
   useStmtCreateTable tgtSchema,
   dropTableStmt tgtTable,
   renameTableStmt tableCreate srcTable tgtTable]

/-- The provisioning statements issued by main lines 232-239: nothing at
all in (effective) append mode; otherwise schema creation when the target
schema is absent, then the createTable transaction. -/
def provisioningStmts (ignoreFlag appendFlag schemaExists : Bool)
    (srcTable tgtSchema tgtTable tableCreate charSet : Chars) : List Chars :=
  if effectiveAppend ignoreFlag appendFlag then []
  else (if schemaExists then [] else [createDatabaseStmt tgtSchema charSet])
    ++ createTableStmts srcTable tgtSchema tgtTable tableCreate

/-- The statements the program executes outside provisioning:
introspection queries, the source select, and the per-flush target
statements, rest ranging over the row data a flush appends after the
insert prefix. -/
def nonProvisioningStmts (ignoreFlag : Bool)
    (srcSchema srcTable tgtSchema tgtTable wh rest : Chars) : List Chars :=
  [showCreateStmt srcSchema srcTable,
   "select data_type from information_schema.columns where table_schema = '".toList
     ++ srcSchema ++ "' and table_name = '".toList ++ srcTable ++ "'".toList,
   selectStmt srcSchema srcTable wh,
   "set foreign_key_checks=0".toList,
   useStmtWriteRows tgtSchema,
   insertPrefixChars ignoreFlag tgtSchema tgtTable ++ rest]

/-- A drop statement: statement text beginning with the drop keyword. -/
def isDropStmt (stmt : Chars) : Bool := "drop".toList.isPrefixOf stmt

/-- C7: InsertIgnore forces Append mode; in either Append mode the
provisioning step is skipped entirely, so no statement the program issues
is a drop statement; the insert verb is the ignore variant exactly when
the ignore flag is set; and in Recreate mode (both flags off) the
provisioning statements end with the drop immediately followed by the
create, regardless of whether the schema had to be created first. -/
theorem claimC7_mode_semantics (ig ap schemaExists : Bool)
    (srcSchema srcTable tgtSchema tgtTable tableCreate charSet wh rest : Chars) :
    (ig = true → effectiveAppend ig ap = true) ∧
    (effectiveAppend ig ap = true →
      provisioningStmts ig ap schemaExists srcTable tgtSchema tgtTable tableCreate charSet
        = [] ∧
      ∀ stmt ∈ nonProvisioningStmts ig srcSchema srcTable tgtSchema tgtTable wh rest,
        isDropStmt stmt = false) ∧
    (ig = true →
      ∃ r, insertPrefixChars ig tgtSchema tgtTable = "insert ignore into ".toList ++ r) ∧
    (ig = false →
      ∃ r, insertPrefixChars ig tgtSchema tgtTable = "insert into ".toList ++ r) ∧
    (effectiveAppend ig ap = false →
      ∃ l1, provisioningStmts ig ap schemaExists srcTable tgtSchema tgtTable tableCreate charSet
        = l1 ++ [dropTableStmt tgtTable, renameTableStmt tableCreate srcTable tgtTable]) := by
  refine ⟨?_, ?_, ?_, ?_, ?_⟩
  · intro hig
    unfold effectiveAppend
    rw [hig]
    simp
  · intro happ
    constructor
    · unfold provisioningStmts
      rw [happ]
      simp
    · intro stmt hmem
      simp only [nonProvisioningStmts, List.mem_cons,
        List.not_mem_nil, or_false] at hmem
      rcases hmem with h | h | h | h | h | h
      all_goals subst h
      · rfl
      · rfl
      · rfl
      · rfl
      · rfl
      · cases ig
        · rfl
        · rfl
  · intro hig
    subst hig
    exact ⟨addQuotes tgtSchema ++ ".".toList ++ addQuotes tgtTable ++ " values (".toList,
      by unfold insertPrefixChars; simp [List.append_assoc]⟩
  · intro hig
    subst hig
    exact ⟨addQuotes tgtSchema ++ ".".toList ++ addQuotes tgtTable ++ " values (".toList,
      by unfold insertPrefixChars; simp [List.append_assoc]⟩
  · intro happ
    have hps : provisioningStmts ig ap schemaExists srcTable tgtSchema tgtTable
          tableCreate charSet
        = (if schemaExists then [] else [createDatabaseStmt tgtSchema charSet])
          ++ createTableStmts srcTable tgtSchema tgtTable tableCreate := by
      unfold provisioningStmts
      rw [happ]
      simp
    rw [hps]
    cases schemaExists
    · exact ⟨[createDatabaseStmt tgtSchema charSet, "set foreign_key_checks=0".toList,
        useStmtCreateTable tgtSchema], by simp [createTableStmts]⟩
    · exact ⟨["set foreign_key_checks=0".toList, useStmtCreateTable tgtSchema], by
        simp [createTableStmts]⟩

theorem claimC7_mode_semantics_witness :
    effectiveAppend true false = true ∧
    provisioningStmts true false false "a".toList "s".toList "t".toList "c".toList "u".toList
      = [] ∧
    (∃ r, insertPrefixChars true "s".toList "t".toList = "insert ignore into ".toList ++ r) ∧
    (∃ l1, provisioningStmts false false true "a".toList "s".toList "t".toList
        "c".toList "u".toList
      = l1 ++ [dropTableStmt "t".toList,
               renameTableStmt "c".toList "a".toList "t".toList]) :=
  ⟨(claimC7_mode_semantics true false false "x".toList "a".toList "s".toList "t".toList
      "c".toList "u".toList [] []).1 rfl,
   ((claimC7_mode_semantics true false false "x".toList "a".toList "s".toList "t".toList
      "c".toList "u".toList [] []).2.1 (by decide)).1,
   (claimC7_mode_semantics true false false "x".toList "a".toList "s".toList "t".toList
      "c".toList "u".toList [] []).2.2.1 rfl,
   (claimC7_mode_semantics false false true "x".toList "a".toList "s".toList "t".toList
      "c".toList "u".toList [] []).2.2.2.2 (by decide)⟩

/-- Exit code used for configuration/usage errors in main (lines 156,
164): missing target host, missing or non-qualified source table. -/
def usageExitCode : Nat := 1

/-- Exit code used for mid-copy failures: a failing source query in
readRows (line 427) and a failing batch execution in writeRows (lines
552, 588). -/
def midCopyExitCode : Nat := 11

/-- Exit code of a successful run (main returns normally). -/
def successExitCode : Nat := 0

/-- go strings.Split(s, ".") at the character level: split on every dot,
yielding one (possibly empty) part more than the number of dots. -/
def splitOnDot : Chars → List Chars
  | [] => [[]]
  | c :: rest =>
    if c = '.' then [] :: splitOnDot rest
    else
      match splitOnDot rest with
      | [] => [[c]]
      | p :: ps => (c :: p) :: ps

/-- Outcome of main's validation and table-splitting phase (lines
153-206), all of which runs before any connection attempt: a usage-error
exit, a Go runtime panic (index out of range on srcSplit 1 / tgtSplit 1
at lines 205-206 when a table name holds no dot), or proceeding to
connect with the split schema and table names. -/
inductive MainControl where
  | usageExit (code : Nat)
  | indexPanic
  | proceed (srcSchema srcTable tgtSchema tgtTable : Chars)
deriving DecidableEq, Repr

/-- go main lines 202-206: split both qualified names on the dot and read
parts 0 and 1 of each; accessing part 1 of a dot-free name panics. -/
def mainSplit (srcTable tgtTable : Chars) : MainControl :=
  match (splitOnDot srcTable).get? 1, (splitOnDot tgtTable).get? 1 with
  | some s1, some t1 =>
      .proceed ((splitOnDot srcTable).getD 0 []) s1 ((splitOnDot tgtTable).getD 0 []) t1
  | _, _ => .indexPanic

/-- go main lines 153-206: the validation chain. A missing target host is
a usage error; an empty target table is defaulted to the source table
when the source table is non-empty (skipping the qualification check);
otherwise an empty or dot-free source table is a usage error; then both
names are split. -/
def mainControl (tgtHost srcTable tgtTable : Chars) : MainControl :=
  if tgtHost = [] then .usageExit usageExitCode
  else if tgtTable = [] ∧ ¬ srcTable = [] then mainSplit srcTable srcTable
  else if srcTable = [] ∨ ¬ srcTable.contains '.' then .usageExit usageExitCode
  else mainSplit srcTable tgtTable

/-- C9: exit-code discipline and its gap. The three exit codes are
pairwise distinct and the usage checks run before any connection attempt:
a missing target host and a non-qualified source table (when a target
table is supplied) exit with the usage code, and a well-formed
configuration proceeds to the split names. However, when the target table
flag is empty, the source-table qualification check is skipped: a
dot-free source table then reaches the split and the program panics with
a Go runtime index-out-of-range error instead of exiting with the usage
code — the configuration error the claim describes is not caught on that
path. -/
theorem claimC9_exit_codes :
    mainControl "h".toList "foo".toList [] = MainControl.indexPanic ∧
    mainControl "h".toList "foo".toList "x.y".toList
      = MainControl.usageExit usageExitCode ∧
    mainControl [] "a.b".toList [] = MainControl.usageExit usageExitCode ∧
    mainControl "h".toList [] [] = MainControl.usageExit usageExitCode ∧
    mainControl "h".toList "a.b".toList []
      = MainControl.proceed "a".toList "b".toList "a".toList "b".toList ∧
    mainControl "h".toList "a.b".toList "c.d".toList
      = MainControl.proceed "a".toList "b".toList "c".toList "d".toList ∧
    usageExitCode ≠ successExitCode ∧ midCopyExitCode ≠ successExitCode ∧
    usageExitCode ≠ midCopyExitCode := by
  refine ⟨by decide, by decide, by decide, by decide, by decide, by decide,
    by decide, by decide, by decide⟩

end MyTableCopy
